import Mathlib

/-!
# Verification of the IDA Pro SigMaker signature core

Shallow embedding of the signature algebra of `Main.cpp` (the only source
file of the repository): the operand wildcard policy (`GetOperandOffsetARM`,
`GetOperand`), the per-instruction byte append rule, the growing unique
signature builder (`GenerateUniqueSignatureForEA`), the fixed-range builder
(`GenerateSignatureForEARange`), the cross-reference ranker (`FindXRefs`)
and the mask-detecting part of the pasted-text parser
(`SearchSignatureString`).

External IDA collaborators (image bytes, flags, instruction decoder,
function resolver, cancellation, interactive prompt, cross-reference
enumeration) are modelled as an explicit environment `Env`; the loops of
the two builders are modelled as step functions iterated with explicit
fuel, since the C++ loops are `while (true)` loops whose exits are data
dependent.

Helpers declared in `SignatureUtils.h` / `Utils.h` (which are not part of
the repository snapshot) — `AddBytesToSignature`, `TrimSignature`,
`GetRegexMatches` — are modelled from the spec; each such definition says
so in its doc comment.
-/

namespace SigMaker

/-- One signature entry: a byte value plus a wildcard flag
(`struct SignatureByte` of the plugin). -/
structure SignatureByte where
  value : Nat
  isWildcard : Bool
deriving DecidableEq, Repr

/-- Model of `Signature` is an ordered sequence of `SignatureByte` (std::vector). -/
abbrev Signature := List SignatureByte

/-- IDA operand kinds used by the plugin's `switch` on `op.type`.
`o_other` stands for every further processor-specific kind. -/
inductive OpType where
  | o_void
  | o_reg
  | o_mem
  | o_phrase
  | o_displ
  | o_imm
  | o_far
  | o_near
  | o_other
deriving DecidableEq, Repr

/-- A decoded operand: its kind tag and its byte offset `offb` within the
instruction. -/
structure Operand where
  type : OpType
  offb : Nat
deriving DecidableEq, Repr

/-- A decoded instruction (`insn_t` view): total byte length and operand
list. -/
structure Insn where
  size : Nat
  ops : List Operand
deriving DecidableEq, Repr

/-- Answer of the interactive `ask_yn` prompt (1 = Yes, 0 = No,
-1 = Cancel). -/
inductive PromptAnswer where
  | yes
  | no
  | cancel
deriving DecidableEq, Repr

/-- The external IDA collaborators consumed by the core, as one read-only
environment:
image bounds `[minEa, maxEa)` and bytes (`get_bytes`), code flags
(`is_code (get_flags ·)`), the function resolver (`get_func`, a function
identity, `none` when the address has no enclosing function), the
instruction decoder (`decode_insn`, `none` models a return value ≤ 0),
the processor switch `IS_ARM`, the per-iteration cancellation poll
(`user_cancelled`), the per-iteration prompt answer (`ask_yn`), and the
far cross-reference enumeration (`xrefblk_t`, origins in iteration
order). -/
structure Env where
  minEa : Nat
  maxEa : Nat
  readByte : Nat → Nat
  isCode : Nat → Bool
  getFunc : Nat → Option Nat
  decode : Nat → Option Insn
  isArm : Bool
  cancelled : Nat → Bool
  promptAnswer : Nat → PromptAnswer
  xrefsTo : Nat → List Nat

/-- The invalid-address sentinel of a 64-bit `ea_t`. -/
def BADADDR : Nat := 2 ^ 64 - 1

/-- The operand kinds kept by the `switch` in `GetOperandOffsetARM`
(Main.cpp lines 16-26): memory, immediate and branch-target kinds;
everything else (`o_void`, `o_reg`, processor-specific kinds) is
skipped. -/
def armMaskableType (t : OpType) : Bool :=
  match t with
  | .o_mem => true
  | .o_far => true
  | .o_near => true
  | .o_phrase => true
  | .o_displ => true
  | .o_imm => true
  | _ => false

/-- Model of `GetOperandOffsetARM` (Main.cpp lines 11-42): first operand whose kind
passes the `switch` yields `(op.offb, length)` where the length
out-parameter is written only for 4- and 8-byte instructions; for any
other size it keeps the caller's initial value 0
(`uint8_t operandLength = 0` at the call sites, lines 153 / 228). -/
def GetOperandOffsetARM (insn : Insn) : Option (Nat × Nat) :=
  match insn.ops.find? (fun op => armMaskableType op.type) with
  | some op =>
      some (op.offb, if insn.size = 4 then 3 else if insn.size = 8 then 7 else 0)
  | none => none

/-- Model of `GetOperand` (Main.cpp lines 44-68): dispatch on `IS_ARM`; the default
(x86) policy takes the first operand that is not `o_void` and whose
`offb` is nonzero (offb 0 means "unknown"), with length
`instruction.size - op.offb`. -/
def GetOperand (isArm : Bool) (insn : Insn) : Option (Nat × Nat) :=
  if isArm then
    GetOperandOffsetARM insn
  else
    match insn.ops.find? (fun op => decide (op.type ≠ OpType.o_void ∧ op.offb ≠ 0)) with
    | some op => some (op.offb, insn.size - op.offb)
    | none => none

/-- The `count` bytes of the image starting at `addr`, each tagged with the
given wildcard flag. -/
def segBytes (env : Env) (addr count : Nat) (wildcard : Bool) : Signature :=
  (List.range count).map (fun i => ⟨env.readByte (addr + i), wildcard⟩)

/-- Modelled from the spec: `AddBytesToSignature` is declared in
`SignatureUtils.h`, which is not in `src/`. Spec section 4.2: read `count`
raw bytes from the image at `addr` and append each as a `SignatureByte`
with the given wildcard flag, preserving original byte values. -/
def AddBytesToSignature (env : Env) (sig : Signature) (addr count : Nat) (wildcard : Bool) : Signature :=
  sig ++ segBytes env addr count wildcard

/-- Modelled from the spec: `TrimSignature` is declared in
`SignatureUtils.h`, which is not in `src/`. Spec section 3: remove
`SignatureByte` entries from the tail while `isWildcard` is true. -/
def TrimSignature (sig : Signature) : Signature :=
  (sig.reverse.dropWhile (fun b => b.isWildcard)).reverse

/-- Wildcard-aware byte-level match of a signature at one image address
(the external `bin_search` semantics: a wildcard position matches any
byte, a literal position must equal the image byte). -/
def sigMatchesAt (env : Env) : Nat → Signature → Bool
  | _, [] => true
  | a, b :: rest => (b.isWildcard || env.readByte a == b.value) && sigMatchesAt env (a + 1) rest

/-- Model of `FindSignatureOccurences` (Main.cpp lines 70-90): the repeated
`bin_search2` loop collects every match address of the rendered signature
over the whole image `[min_ea, max_ea)`, in ascending order. The external
matcher is modelled byte-wise; the IDA rendering step is injective on the
match-relevant content (value and wildcard flag), so the search is taken
directly on the signature. -/
def FindSignatureOccurences (env : Env) (sig : Signature) : List Nat :=
  ((List.range (env.maxEa - env.minEa)).map (fun i => env.minEa + i)).filter
    (fun a => decide (a + sig.length ≤ env.maxEa) && sigMatchesAt env a sig)

/-- Model of `IsSignatureUnique` (Main.cpp lines 92-94): exactly one occurrence in
the whole image. -/
def IsSignatureUnique (env : Env) (sig : Signature) : Bool :=
  (FindSignatureOccurences env sig).length == 1

/-- The per-instruction append step shared by both builders (Main.cpp
lines 153-167 and 228-242): with operand wildcarding enabled and a
maskable operand of positive length, append `[0, offset)` literal,
`[offset, offset+length)` wildcarded, and — exactly when `offset = 0` —
additionally `[length, size)` literal; otherwise append the whole
instruction literal. -/
def appendInsnBytes (env : Env) (wildcardOperands : Bool) (addr : Nat) (insn : Insn) (sig : Signature) : Signature :=
  match (if wildcardOperands then GetOperand env.isArm insn else none) with
  | some (operandOffset, operandLength) =>
      if 0 < operandLength then
        let s1 := AddBytesToSignature env sig addr operandOffset false
        let s2 := AddBytesToSignature env s1 (addr + operandOffset) operandLength true
        if operandOffset = 0 then
          AddBytesToSignature env s2 (addr + operandLength) (insn.size - operandLength) false
        else s2
      else AddBytesToSignature env sig addr insn.size false
  | none => AddBytesToSignature env sig addr insn.size false

/-- Error taxonomy of the two builders (the `std::unexpected` strings of
Main.cpp). `notUnique` carries the diagnostic signature printed by `msg`
just before the `"Signature not unique"` return. `unknown` additionally
models running out of fuel (the C++ loops have no normal exit). -/
inductive GenError where
  | invalidAddress
  | notCode
  | decodeFailed
  | notUnique (diag : Signature)
  | lengthExceeded
  | leftFunctionScope
  | aborted
  | unknown
deriving DecidableEq, Repr

/-- Loop state of `GenerateUniqueSignatureForEA`: the signature built so
far, the overflow counter `sigPartLength`, the cursor `currentAddress`,
and the number of completed loop iterations (used to index the
cancellation poll and the prompt answer). -/
structure GenState where
  sig : Signature
  sigPartLength : Nat
  cur : Nat
  iter : Nat
deriving DecidableEq, Repr

/-- The call parameters of `GenerateUniqueSignatureForEA` that stay fixed
during the loop, plus the enclosing function resolved once before it
(`get_func(ea)`, Main.cpp line 108). -/
structure GenParams where
  wildcardOperands : Bool
  continueOutsideOfFunction : Bool
  maxSignatureLength : Nat
  askLongerSignature : Bool
  currentFunction : Option Nat

/-- Model of `decode_insn` at an address: failure is a returned length ≤ 0, modelled
as `none` or a zero-size instruction. -/
def decodeAt (env : Env) (a : Nat) : Option Insn :=
  match env.decode a with
  | some insn => if insn.size = 0 then none else some insn
  | none => none

/-- Outcome of one loop iteration: loop exit with a result, or the next
loop state. -/
inductive StepRes where
  | done (r : Except GenError Signature)
  | next (st : GenState)

/-- The part of one growing-builder iteration after the overflow check
(Main.cpp lines 151-183): bump the counter, append the instruction's
bytes, test uniqueness over the whole image; on success trim and return,
otherwise advance the cursor and apply the function-scope check. -/
def stepBody (env : Env) (p : GenParams) (st : GenState) (insn : Insn) : StepRes :=
  if IsSignatureUnique env (appendInsnBytes env p.wildcardOperands st.cur insn st.sig) then
    .done (.ok (TrimSignature (appendInsnBytes env p.wildcardOperands st.cur insn st.sig)))
  else
    if p.continueOutsideOfFunction = false ∧ p.currentFunction.isSome = true ∧
        env.getFunc (st.cur + insn.size) ≠ p.currentFunction then
      .done (.error .leftFunctionScope)
    else
      .next ⟨appendInsnBytes env p.wildcardOperands st.cur insn st.sig,
        st.sigPartLength + insn.size, st.cur + insn.size, st.iter + 1⟩

/-- One full iteration of the growing builder's `while (true)` loop
(Main.cpp lines 111-184): cancellation poll, decode (with the
empty/non-empty failure split), the max-length check with its interactive
prompt (Yes resets the overflow counter and proceeds, No fails
`notUnique` with the current signature as diagnostic, Cancel aborts; with
prompting disabled the builder fails `lengthExceeded`), then
`stepBody`. -/
def stepGen (env : Env) (p : GenParams) (st : GenState) : StepRes :=
  if env.cancelled st.iter then .done (.error .aborted)
  else
    match decodeAt env st.cur with
    | none =>
        if st.sig.isEmpty then .done (.error .decodeFailed)
        else .done (.error (.notUnique st.sig))
    | some insn =>
        if st.sigPartLength > p.maxSignatureLength then
          if p.askLongerSignature then
            match env.promptAnswer st.iter with
            | .yes => stepBody env p { st with sigPartLength := 0 } insn
            | .no => .done (.error (.notUnique st.sig))
            | .cancel => .done (.error .aborted)
          else .done (.error .lengthExceeded)
        else stepBody env p st insn

/-- The growing builder's loop, iterated with fuel (the C++ loop has no
normal exit; exhausted fuel yields the unreachable `"Unknown"` error of
Main.cpp line 185). -/
def runGen (env : Env) (p : GenParams) : Nat → GenState → Except GenError Signature
  | 0, _ => .error .unknown
  | fuel + 1, st =>
      match stepGen env p st with
      | .done r => r
      | .next st2 => runGen env p fuel st2

/-- Model of `GenerateUniqueSignatureForEA` (Main.cpp lines 96-186): reject
`BADADDR` and non-code anchors, resolve the enclosing function, then run
the growing loop from the anchor with an empty signature. -/
def GenerateUniqueSignatureForEA (env : Env) (ea : Nat)
    (wildcardOperands continueOutsideOfFunction : Bool)
    (maxSignatureLength : Nat) (askLongerSignature : Bool) (fuel : Nat) :
    Except GenError Signature :=
  if ea = BADADDR then .error .invalidAddress
  else if env.isCode ea = false then .error .notCode
  else
    runGen env
      ⟨wildcardOperands, continueOutsideOfFunction, maxSignatureLength,
        askLongerSignature, env.getFunc ea⟩
      fuel ⟨[], 0, ea, 0⟩

/-- The loop state reached after `n` non-exiting iterations of the growing
builder (`none` once some earlier iteration exited the loop). -/
def iterateGen (env : Env) (p : GenParams) : Nat → GenState → Option GenState
  | 0, st => some st
  | n + 1, st =>
      match stepGen env p st with
      | .next st2 => iterateGen env p n st2
      | .done _ => none

/-- The signature whose uniqueness the iteration starting at `st` tests:
the signature so far extended by the decoded instruction's bytes (`none`
when decoding fails, i.e. when no uniqueness test happens in that
iteration). -/
def checkSigAt (env : Env) (p : GenParams) (st : GenState) : Option Signature :=
  (decodeAt env st.cur).map
    (fun insn => appendInsnBytes env p.wildcardOperands st.cur insn st.sig)

/-- Loop state of `GenerateSignatureForEARange` (the accumulated
`sigPartLength` of that loop is dead code — never read — and is
omitted). -/
structure RangeState where
  sig : Signature
  cur : Nat
  iter : Nat
deriving DecidableEq, Repr

/-- Outcome of one range-builder iteration. -/
inductive RangeStepRes where
  | done (r : Except GenError Signature)
  | next (st : RangeState)

/-- One iteration of the range builder's loop (Main.cpp lines 204-250):
cancellation poll; on decode failure with a nonempty signature, append
the remaining `[cur, eaEnd)` literal bytes, trim and finish (empty →
`decodeFailed`); otherwise append the instruction's bytes and finish
(with trim) once the cursor reaches or passes `eaEnd`. -/
def stepRange (env : Env) (wildcardOperands : Bool) (eaEnd : Nat) (st : RangeState) : RangeStepRes :=
  if env.cancelled st.iter then .done (.error .aborted)
  else
    match decodeAt env st.cur with
    | none =>
        if st.sig.isEmpty then .done (.error .decodeFailed)
        else
          .done (.ok (TrimSignature
            (if st.cur < eaEnd then
              AddBytesToSignature env st.sig st.cur (eaEnd - st.cur) false
            else st.sig)))
    | some insn =>
        if st.cur + insn.size ≥ eaEnd then
          .done (.ok (TrimSignature (appendInsnBytes env wildcardOperands st.cur insn st.sig)))
        else
          .next ⟨appendInsnBytes env wildcardOperands st.cur insn st.sig,
            st.cur + insn.size, st.iter + 1⟩

/-- The range builder's loop, iterated with fuel. -/
def runRange (env : Env) (wildcardOperands : Bool) (eaEnd : Nat) :
    Nat → RangeState → Except GenError Signature
  | 0, _ => .error .unknown
  | fuel + 1, st =>
      match stepRange env wildcardOperands eaEnd st with
      | .done r => r
      | .next st2 => runRange env wildcardOperands eaEnd fuel st2

/-- Model of `GenerateSignatureForEARange` (Main.cpp lines 189-252): reject
`BADADDR` at either end; a non-code start copies `[eaStart, eaEnd)` as
literal bytes directly (no trim — all bytes are literal); a code start
runs the positional loop. Note: the C++ code performs no `start == end`
check. -/
def GenerateSignatureForEARange (env : Env) (eaStart eaEnd : Nat)
    (wildcardOperands : Bool) (fuel : Nat) : Except GenError Signature :=
  if eaStart = BADADDR ∨ eaEnd = BADADDR then .error .invalidAddress
  else if env.isCode eaStart = false then
    .ok (AddBytesToSignature env [] eaStart (eaEnd - eaStart) false)
  else runRange env wildcardOperands eaEnd fuel ⟨[], eaStart, 0⟩

/-- The signature the ranker builds for one cross-reference origin
(Main.cpp line 289): the growing builder invoked with prompting disabled
and the given length cap; `none` when it fails. -/
def genPair (env : Env) (wildcardOperands continueOutsideOfFunction : Bool)
    (maxSignatureLength fuel : Nat) (o : Nat) : Option (Nat × Signature) :=
  match GenerateUniqueSignatureForEA env o wildcardOperands
      continueOutsideOfFunction maxSignatureLength false fuel with
  | .ok s => some (o, s)
  | .error _ => none

/-- The counting loop of `FindXRefs` (Main.cpp lines 270-276): count only
origins that are code. -/
def countCodeXrefs (env : Env) : List Nat → Nat
  | [] => 0
  | o :: rest => (if env.isCode o then 1 else 0) + countCodeXrefs env rest

/-- The collection loop of `FindXRefs` (Main.cpp lines 278-295): skip
non-code origins, silently drop origins whose generation fails, keep the
`(origin, signature)` pairs in origin order. -/
def collectXrefSigs (env : Env) (wildcardOperands continueOutsideOfFunction : Bool)
    (maxSignatureLength fuel : Nat) : List Nat → List (Nat × Signature)
  | [] => []
  | o :: rest =>
      if env.isCode o then
        match genPair env wildcardOperands continueOutsideOfFunction
            maxSignatureLength fuel o with
        | some pr => pr :: collectXrefSigs env wildcardOperands
            continueOutsideOfFunction maxSignatureLength fuel rest
        | none => collectXrefSigs env wildcardOperands
            continueOutsideOfFunction maxSignatureLength fuel rest
      else collectXrefSigs env wildcardOperands continueOutsideOfFunction
        maxSignatureLength fuel rest

/-- Comparison used to sort ranked signatures: byte count of the canonical
signature (Main.cpp line 298 compares `std::get<1>(·).size()`). -/
def sigLenLE (a b : Nat × Signature) : Prop := a.2.length ≤ b.2.length

instance : DecidableRel sigLenLE := fun a b => Nat.decLe a.2.length b.2.length

instance : IsTotal (Nat × Signature) sigLenLE :=
  ⟨fun a b => Nat.le_total a.2.length b.2.length⟩

instance : IsTrans (Nat × Signature) sigLenLE :=
  ⟨fun _ _ _ h1 h2 => Nat.le_trans h1 h2⟩

/-- Model of `FindXRefs` (Main.cpp lines 266-299): collect a signature per code
cross-reference origin, then sort by signature byte count ascending.
`std::ranges::sort` is unstable (any sorted permutation); it is modelled
by insertion sort, and the theorems state only the order-independent
facts (permutation of the collected pairs, sortedness). -/
def FindXRefs (env : Env) (ea : Nat) (wildcardOperands continueOutsideOfFunction : Bool)
    (maxSignatureLength fuel : Nat) : List (Nat × Signature) :=
  List.insertionSort sigLenLE
    (collectXrefSigs env wildcardOperands continueOutsideOfFunction
      maxSignatureLength fuel (env.xrefsTo ea))

/-- The single-value output of `PrintXRefSignaturesForEA` (Main.cpp lines
314-317): only the first ranked signature is copied to the clipboard. -/
def xrefPrimaryPick (xs : List (Nat × Signature)) : Option (Nat × Signature) :=
  xs.head?

/-- A string-mask character: `x` or `?`. -/
def isMaskChar (c : Char) : Bool := c = 'x' || c = '?'

/-- Maximal prefix run of mask characters (the greedy `+` of the mask
regex). -/
def maskRun : List Char → List Char
  | [] => []
  | c :: rest => if isMaskChar c then c :: maskRun rest else []

/-- Leftmost match of the string-mask regex `x(?:x|\?)+` of Main.cpp line
347: the first position holding an `x` followed by at least one further
mask character, extended greedily. -/
def findStringMask : List Char → Option (List Char)
  | [] => none
  | c :: rest =>
      match rest with
      | r :: _ =>
          if c = 'x' ∧ isMaskChar r then some (c :: maskRun rest)
          else findStringMask rest
      | [] => none

/-- A character of the bitmask regex's class `[0,1]` of Main.cpp line 351
(a regex character class, hence literally `0`, `,` and `1`). -/
def isBitChar (c : Char) : Bool := c = '0' || c = '1' || c = ','

/-- Maximal prefix run of bitmask-class characters. -/
def bitRun : List Char → List Char
  | [] => []
  | c :: rest => if isBitChar c then c :: bitRun rest else []

/-- Leftmost match of the bitmask regex `0b(?:[0,1])+` (Main.cpp line
351), already stripped of its `0b` prefix (the `substr(2)` of line
352). -/
def findBitmaskBits : List Char → Option (List Char)
  | [] => none
  | c :: rest =>
      match c, rest with
      | '0', 'b' :: d :: rest2 =>
          if isBitChar d then some (d :: bitRun rest2) else findBitmaskBits rest
      | _, _ => findBitmaskBits rest

/-- Bitmask-to-string-mask conversion (Main.cpp lines 352-356): reverse the
bit string and map `1` to `x` (literal) and anything else to `?`
(wildcard). -/
def bitsToMask (bits : List Char) : List Char :=
  bits.reverse.map (fun b => if b = '1' then 'x' else '?')

/-- The mask-detection phase of `SearchSignatureString` (Main.cpp lines
342-357): first the string-mask regex, else the bitmask regex converted
by `bitsToMask`; the empty list models the empty `stringMask` (no mask
found). -/
def detectedMask (input : List Char) : List Char :=
  match findStringMask input with
  | some m => m
  | none =>
      match findBitmaskBits input with
      | some bits => bitsToMask bits
      | none => []

/-- An uppercase hexadecimal digit (the regex class `[0-9A-F]`
of Main.cpp lines 364 and 373). -/
def isHexUpper (c : Char) : Bool := ('0' ≤ c && c ≤ '9') || ('A' ≤ c && c ≤ 'F')

/-- Numeric value of an uppercase hexadecimal digit. -/
def hexVal (c : Char) : Nat :=
  if c ≤ '9' then c.toNat - '0'.toNat else c.toNat - 'A'.toNat + 10

/-- The byte value `std::stoi(m.substr(2), nullptr, 16)` of one two-digit
token. -/
def hexByte (h1 h2 : Char) : Nat := 16 * hexVal h1 + hexVal h2

/-- Modelled from the spec (and the regex of Main.cpp line 364):
`GetRegexMatches` lives in `Utils.h`, which is not in `src/`; spec
section 4.6 step 3 scans the full text for escaped-hex byte tokens
`\xNN`. Left-to-right, non-overlapping, uppercase digits only. -/
def extractEscBytes : List Char → List Nat
  | '\\' :: 'x' :: h1 :: h2 :: rest =>
      if isHexUpper h1 && isHexUpper h2 then hexByte h1 h2 :: extractEscBytes rest
      else extractEscBytes ('x' :: h1 :: h2 :: rest)
  | _ :: rest => extractEscBytes rest
  | [] => []

/-- Modelled from the spec (and the regex of Main.cpp line 373):
`GetRegexMatches` lives in `Utils.h`, which is not in `src/`; spec
section 4.6 step 3 scans the full text for C-hex byte tokens `0xNN`. -/
def extract0xBytes : List Char → List Nat
  | '0' :: 'x' :: h1 :: h2 :: rest =>
      if isHexUpper h1 && isHexUpper h2 then hexByte h1 h2 :: extract0xBytes rest
      else extract0xBytes ('x' :: h1 :: h2 :: rest)
  | _ :: rest => extract0xBytes rest
  | [] => []

/-- The zip of Main.cpp lines 366-369 / 375-378: pair the i-th byte token
with the i-th mask character; `?` means wildcard. -/
def zipMask (mask : List Char) (toks : List Nat) : Signature :=
  (toks.zip mask).map (fun pr => ⟨pr.1, pr.2 == '?'⟩)

/-- Result of the masked branch of `SearchSignatureString`: a converted
signature, or the `"Detected mask ... but failed to match corresponding
bytes"` diagnostic of Main.cpp line 382 (which leaves the converted
string empty, so the function aborts with no partial result). -/
inductive MaskParseResult where
  | ok (sig : Signature)
  | maskMismatch (mask : List Char)
deriving DecidableEq, Repr

/-- The masked branch of `SearchSignatureString` (Main.cpp lines 359-384):
accept the `\xNN` tokens when found and exactly as many as mask
characters, else the `0xNN` tokens under the same count condition, else
report the mismatch naming the detected mask. -/
def parseWithMask (input mask : List Char) : MaskParseResult :=
  if extractEscBytes input ≠ [] ∧ (extractEscBytes input).length = mask.length then
    .ok (zipMask mask (extractEscBytes input))
  else if extract0xBytes input ≠ [] ∧ (extract0xBytes input).length = mask.length then
    .ok (zipMask mask (extract0xBytes input))
  else .maskMismatch mask

/-! ## Concrete environments for witnesses and counterexamples -/

/-- A two-byte image `[144, 1]`, all code, every instruction one byte with
no operands, no enclosing function, never cancelled, one cross-reference
origin at address 0. -/
def envA : Env where
  minEa := 0
  maxEa := 2
  readByte := fun a => if a = 0 then 144 else 1
  isCode := fun _ => true
  getFunc := fun _ => none
  decode := fun _ => some ⟨1, []⟩
  isArm := false
  cancelled := fun _ => false
  promptAnswer := fun _ => .yes
  xrefsTo := fun _ => [0]

/-- A four-byte all-zero image holding only data (`is_code` false
everywhere), with a decoder that always fails. -/
def envC6 : Env where
  minEa := 0
  maxEa := 4
  readByte := fun _ => 0
  isCode := fun _ => false
  getFunc := fun _ => none
  decode := fun _ => none
  isArm := false
  cancelled := fun _ => false
  promptAnswer := fun _ => .yes
  xrefsTo := fun _ => []

/-! ## Basic lemmas -/

/-- A signature with no discriminating noise at its tail: the last entry,
when present, is not a wildcard (spec section 3's trim invariant). -/
def noTrailingWildcard (sig : Signature) : Prop :=
  ∀ b ∈ sig.getLast?, b.isWildcard = false

lemma head?_dropWhile_false (p : SignatureByte → Bool) :
    ∀ l : List SignatureByte, ∀ b ∈ (l.dropWhile p).head?, p b = false := by
  intro l
  induction l with
  | nil => simp [List.dropWhile]
  | cons c rest ih =>
      intro b hb
      by_cases hc : p c
      · rw [List.dropWhile_cons_of_pos hc] at hb
        exact ih b hb
      · rw [List.dropWhile_cons_of_neg hc] at hb
        simp only [List.head?_cons, Option.mem_def, Option.some.injEq] at hb
        subst hb
        exact Bool.eq_false_iff.mpr hc

lemma trim_noTrailingWildcard (sig : Signature) :
    noTrailingWildcard (TrimSignature sig) := by
  intro b hb
  rw [TrimSignature, List.getLast?_reverse] at hb
  exact head?_dropWhile_false _ _ b hb

/-! ## C2: the per-instruction byte append rule -/

/-- C2: for every decoded instruction with operand wildcarding enabled and
a maskable operand range `(offset, length)` with `length > 0`, the
builders append bytes `[0, offset)` literal, `[offset, offset+length)`
wildcarded, and — exactly when `offset = 0` — additionally
`[length, size)` literal; when wildcarding is disabled, no operand
qualifies, or the length is 0, the whole instruction is appended
literal. -/
theorem append_rule_masks_operand_range (env : Env) (wc : Bool) (addr : Nat)
    (insn : Insn) (sig : Signature) :
    (∀ off len, wc = true → GetOperand env.isArm insn = some (off, len) → 0 < len →
      appendInsnBytes env wc addr insn sig =
        sig ++ segBytes env addr off false ++ segBytes env (addr + off) len true ++
          (if off = 0 then segBytes env (addr + len) (insn.size - len) false else []))
    ∧ ((wc = false ∨ GetOperand env.isArm insn = none ∨
          (∃ off, GetOperand env.isArm insn = some (off, 0))) →
        appendInsnBytes env wc addr insn sig = sig ++ segBytes env addr insn.size false) := by
  constructor
  · intro off len hwc hop hlen
    subst hwc
    by_cases hoff : off = 0 <;>
      simp [appendInsnBytes, hop, Nat.pos_iff_ne_zero.mp hlen, hoff,
        AddBytesToSignature, List.append_assoc]
  · rintro (h | h | ⟨off, h⟩) <;>
      cases wc <;>
      simp_all [appendInsnBytes, AddBytesToSignature]

/-- C2 witness: a 3-byte x86 instruction with an immediate at offset 1 is
appended as 1 literal byte plus 2 wildcards, and with wildcarding
disabled it is appended fully literal. -/
theorem append_rule_masks_operand_range_witness :
    appendInsnBytes envA true 0 ⟨3, [⟨.o_imm, 1⟩]⟩ [] =
      [] ++ segBytes envA 0 1 false ++ segBytes envA (0 + 1) 2 true ++
        (if 1 = 0 then segBytes envA (0 + 2) (3 - 2) false else [])
    ∧ appendInsnBytes envA false 0 ⟨3, [⟨.o_imm, 1⟩]⟩ [] =
        [] ++ segBytes envA 0 3 false :=
  ⟨(append_rule_masks_operand_range envA true 0 ⟨3, [⟨.o_imm, 1⟩]⟩ []).1 1 2 rfl rfl
      (by decide),
    (append_rule_masks_operand_range envA false 0 ⟨3, [⟨.o_imm, 1⟩]⟩ []).2 (Or.inl rfl)⟩

/-! ## C4: the ARM operand policy -/

/-- C4: under the ARM policy a returned operand range always comes from an
operand of one of the memory/immediate/branch-target kinds kept by the
`switch`, with the offset taken directly from that operand's `offb` and
the masked length 3 for a 4-byte and 7 for an 8-byte instruction; when
no operand kind qualifies the policy returns none, and for an
instruction of any other size no byte is masked — the builders append
the whole instruction literal (the length out-parameter keeps its
initial value 0, which the `operandLength > 0` guard at the call sites
rejects). -/
theorem arm_policy_kinds_and_lengths :
    (∀ insn off len, GetOperandOffsetARM insn = some (off, len) →
      ∃ op, op ∈ insn.ops ∧ armMaskableType op.type = true ∧ off = op.offb ∧
        (insn.size = 4 → len = 3) ∧ (insn.size = 8 → len = 7) ∧
        (insn.size ≠ 4 → insn.size ≠ 8 → len = 0))
    ∧ (∀ insn, (∀ op ∈ insn.ops, armMaskableType op.type = false) →
        GetOperandOffsetARM insn = none)
    ∧ (∀ env wc addr insn sig, env.isArm = true → insn.size ≠ 4 → insn.size ≠ 8 →
        appendInsnBytes env wc addr insn sig = sig ++ segBytes env addr insn.size false) := by
  refine ⟨?_, ?_, ?_⟩
  · intro insn off len h
    rw [GetOperandOffsetARM] at h
    cases hf : insn.ops.find? (fun op => armMaskableType op.type) with
    | none => rw [hf] at h; exact absurd h (by simp)
    | some op =>
        rw [hf] at h
        simp only [Option.some.injEq, Prod.mk.injEq] at h
        have hty : armMaskableType op.type = true := by
          have h2 := List.find?_some hf
          simpa using h2
        refine ⟨op, List.mem_of_find?_eq_some hf, hty, h.1.symm, ?_, ?_, ?_⟩
        · intro h4; rw [← h.2, h4]; simp
        · intro h8; rw [← h.2, if_neg (by rw [h8]; decide), if_pos h8]
        · intro h4 h8; rw [← h.2, if_neg h4, if_neg h8]
  · intro insn h
    rw [GetOperandOffsetARM, List.find?_eq_none.mpr (by simpa using h)]
  · intro env wc addr insn sig harm h4 h8
    cases wc with
    | false => simp [appendInsnBytes, AddBytesToSignature]
    | true =>
        rw [appendInsnBytes]
        simp only [if_true]
        rw [GetOperand, if_pos harm, GetOperandOffsetARM]
        cases hf : insn.ops.find? (fun op => armMaskableType op.type) with
        | none => simp [AddBytesToSignature]
        | some op => simp [h4, h8, AddBytesToSignature]

/-- C4 witness: a 4-byte ARM instruction whose first operand is a register
(skipped) and second an immediate at offset 1 masks `(1, 3)`; a
register-only instruction masks nothing; a 6-byte ARM instruction is
appended fully literal. -/
theorem arm_policy_kinds_and_lengths_witness :
    (∃ op, op ∈ (Insn.mk 4 [⟨.o_reg, 0⟩, ⟨.o_imm, 1⟩]).ops ∧
        armMaskableType op.type = true ∧ 1 = op.offb ∧
        ((4 : Nat) = 4 → 3 = 3) ∧ ((4 : Nat) = 8 → 3 = 7) ∧
        ((4 : Nat) ≠ 4 → (4 : Nat) ≠ 8 → 3 = 0))
    ∧ GetOperandOffsetARM ⟨4, [⟨.o_reg, 0⟩, ⟨.o_void, 2⟩]⟩ = none
    ∧ appendInsnBytes { envA with isArm := true } true 0 ⟨6, [⟨.o_imm, 2⟩]⟩ [] =
        [] ++ segBytes { envA with isArm := true } 0 6 false := by
  refine ⟨?_, ?_, ?_⟩
  · exact arm_policy_kinds_and_lengths.1 ⟨4, [⟨.o_reg, 0⟩, ⟨.o_imm, 1⟩]⟩ 1 3 (by decide)
  · exact arm_policy_kinds_and_lengths.2.1 ⟨4, [⟨.o_reg, 0⟩, ⟨.o_void, 2⟩]⟩ (by decide)
  · exact arm_policy_kinds_and_lengths.2.2 { envA with isArm := true } true 0
      ⟨6, [⟨.o_imm, 2⟩]⟩ [] rfl (by decide) (by decide)

/-! ## C6: range-builder address validation -/

/-- C6 counterexample: the range builder performs no `start == end` check;
with `start = end = 5` (neither being `BADADDR`) on a data image it
succeeds with an empty signature instead of failing with
`invalidAddress`. -/
theorem range_builder_equal_bounds_not_rejected :
    GenerateSignatureForEARange envC6 5 5 false 1 = .ok []
    ∧ GenerateSignatureForEARange envC6 5 5 false 1 ≠ .error .invalidAddress := by
  refine ⟨rfl, fun h => ?_⟩
  exact Except.noConfusion
    ((rfl : GenerateSignatureForEARange envC6 5 5 false 1 = Except.ok []).symm.trans h)

/-- C6 (amended): the range builder fails with `invalidAddress` exactly
when `start` or `end` is the `BADADDR` sentinel; `start == end` is not
rejected. -/
theorem range_builder_badaddr_invalid (env : Env) (eaStart eaEnd : Nat)
    (wc : Bool) (fuel : Nat) (h : eaStart = BADADDR ∨ eaEnd = BADADDR) :
    GenerateSignatureForEARange env eaStart eaEnd wc fuel = .error .invalidAddress := by
  rw [GenerateSignatureForEARange, if_pos h]

/-- C6 witness: a `BADADDR` start is rejected. -/
theorem range_builder_badaddr_invalid_witness :
    GenerateSignatureForEARange envC6 BADADDR 0 false 1 = .error .invalidAddress :=
  range_builder_badaddr_invalid envC6 BADADDR 0 false 1 (Or.inl rfl)

/-! ## C9: decode failure in the growing builder -/

/-- C9: when decoding fails at the current cursor of the growing builder
(and the iteration was not cancelled), the builder fails with
`decodeFailed` if the signature is still empty, and with `notUnique` —
carrying the current signature as diagnostic — if it is nonempty. -/
theorem decode_failure_split (env : Env) (p : GenParams) (st : GenState) (fuel : Nat)
    (hc : env.cancelled st.iter = false) (hd : decodeAt env st.cur = none) :
    runGen env p (fuel + 1) st =
      if st.sig.isEmpty then .error .decodeFailed else .error (.notUnique st.sig) := by
  cases hs : st.sig.isEmpty <;> simp [runGen, stepGen, hc, hd, hs]

/-- C9 witness: with an always-failing decoder, an empty signature fails
`decodeFailed` and a nonempty one fails `notUnique` with itself as
diagnostic. -/
theorem decode_failure_split_witness :
    runGen envC6 ⟨false, false, 1000, true, none⟩ 1 ⟨[], 0, 0, 0⟩ = .error .decodeFailed
    ∧ runGen envC6 ⟨false, false, 1000, true, none⟩ 1 ⟨[⟨1, false⟩], 0, 0, 0⟩ =
        .error (.notUnique [⟨1, false⟩]) := by
  constructor
  · simpa using decode_failure_split envC6 ⟨false, false, 1000, true, none⟩ ⟨[], 0, 0, 0⟩ 0 rfl rfl
  · simpa using decode_failure_split envC6 ⟨false, false, 1000, true, none⟩ ⟨[⟨1, false⟩], 0, 0, 0⟩ 0 rfl rfl

/-! ## Inversion lemmas for the growing builder's loop body -/

lemma stepBody_next_inv {env : Env} {p : GenParams} {st : GenState} {insn : Insn}
    {st2 : GenState} (h : stepBody env p st insn = .next st2) :
    st2.sig = appendInsnBytes env p.wildcardOperands st.cur insn st.sig ∧
    IsSignatureUnique env (appendInsnBytes env p.wildcardOperands st.cur insn st.sig) = false := by
  rw [stepBody] at h
  by_cases hu : IsSignatureUnique env (appendInsnBytes env p.wildcardOperands st.cur insn st.sig) = true
  · rw [if_pos hu] at h
    exact StepRes.noConfusion h
  · rw [if_neg hu] at h
    split at h
    · exact StepRes.noConfusion h
    · cases h
      exact ⟨rfl, Bool.eq_false_iff.mpr hu⟩

lemma stepBody_done_ok {env : Env} {p : GenParams} {st : GenState} {insn : Insn}
    {s : Signature} (h : stepBody env p st insn = .done (.ok s)) :
    IsSignatureUnique env (appendInsnBytes env p.wildcardOperands st.cur insn st.sig) = true ∧
    s = TrimSignature (appendInsnBytes env p.wildcardOperands st.cur insn st.sig) := by
  rw [stepBody] at h
  by_cases hu : IsSignatureUnique env (appendInsnBytes env p.wildcardOperands st.cur insn st.sig) = true
  · rw [if_pos hu] at h
    simp only [StepRes.done.injEq, Except.ok.injEq] at h
    exact ⟨hu, h.symm⟩
  · rw [if_neg hu] at h
    split at h
    · simp at h
    · exact StepRes.noConfusion h

lemma stepGen_next_inv {env : Env} {p : GenParams} {st : GenState} {st2 : GenState}
    (h : stepGen env p st = .next st2) :
    ∃ cs, checkSigAt env p st = some cs ∧ IsSignatureUnique env cs = false := by
  by_cases hc : env.cancelled st.iter = true
  · rw [stepGen, if_pos hc] at h
    exact StepRes.noConfusion h
  · rw [stepGen, if_neg hc] at h
    split at h
    · by_cases hs : st.sig.isEmpty = true
      · rw [if_pos hs] at h; exact StepRes.noConfusion h
      · rw [if_neg hs] at h; exact StepRes.noConfusion h
    · rename_i insn hd
      refine ⟨appendInsnBytes env p.wildcardOperands st.cur insn st.sig,
        by rw [checkSigAt, hd]; rfl, ?_⟩
      by_cases hover : st.sigPartLength > p.maxSignatureLength
      · rw [if_pos hover] at h
        by_cases hask : p.askLongerSignature = true
        · rw [if_pos hask] at h
          cases hans : env.promptAnswer st.iter <;> rw [hans] at h
          · have h2 := stepBody_next_inv
              (show stepBody env p { st with sigPartLength := 0 } insn = .next st2 from h)
            exact h2.2
          · exact StepRes.noConfusion h
          · exact StepRes.noConfusion h
        · rw [if_neg hask] at h
          exact StepRes.noConfusion h
      · rw [if_neg hover] at h
        exact (stepBody_next_inv h).2

lemma stepGen_done_ok {env : Env} {p : GenParams} {st : GenState} {s : Signature}
    (h : stepGen env p st = .done (.ok s)) :
    ∃ cs, checkSigAt env p st = some cs ∧ IsSignatureUnique env cs = true ∧
      s = TrimSignature cs := by
  by_cases hc : env.cancelled st.iter = true
  · rw [stepGen, if_pos hc] at h
    simp at h
  · rw [stepGen, if_neg hc] at h
    split at h
    · by_cases hs : st.sig.isEmpty = true
      · rw [if_pos hs] at h; simp at h
      · rw [if_neg hs] at h; simp at h
    · rename_i insn hd
      refine ⟨appendInsnBytes env p.wildcardOperands st.cur insn st.sig,
        by rw [checkSigAt, hd]; rfl, ?_⟩
      by_cases hover : st.sigPartLength > p.maxSignatureLength
      · rw [if_pos hover] at h
        by_cases hask : p.askLongerSignature = true
        · rw [if_pos hask] at h
          cases hans : env.promptAnswer st.iter <;> rw [hans] at h
          · have h2 := stepBody_done_ok
              (show stepBody env p { st with sigPartLength := 0 } insn = .done (.ok s) from h)
            exact ⟨h2.1, h2.2⟩
          · simp at h
          · simp at h
        · rw [if_neg hask] at h
          simp at h
      · rw [if_neg hover] at h
        exact stepBody_done_ok h

lemma iterateGen_succ {env : Env} {p : GenParams} {st st2 : GenState}
    (h : stepGen env p st = .next st2) (n : Nat) :
    iterateGen env p (n + 1) st = iterateGen env p n st2 := by
  rw [iterateGen, h]

/-- The growing loop returns a success only at the first iteration whose
uniqueness test passes: the success value is the trim of the signature
checked at some iteration `n`, that check passed, and the check of every
strictly earlier iteration failed. -/
lemma runGen_ok_first_unique (env : Env) (p : GenParams) :
    ∀ fuel st0 s, runGen env p fuel st0 = .ok s →
      ∃ n stn cs, iterateGen env p n st0 = some stn ∧
        checkSigAt env p stn = some cs ∧
        IsSignatureUnique env cs = true ∧ s = TrimSignature cs ∧
        ∀ i sti, i < n → iterateGen env p i st0 = some sti →
          ∃ csi, checkSigAt env p sti = some csi ∧ IsSignatureUnique env csi = false := by
  intro fuel
  induction fuel with
  | zero =>
      intro st0 s h
      exact absurd h (by simp [runGen])
  | succ fuel ih =>
      intro st0 s h
      rw [runGen] at h
      cases hstep : stepGen env p st0 with
      | done r =>
          rw [hstep] at h
          have hr : r = Except.ok s := h
          obtain ⟨cs, hcs, hu, hs⟩ := stepGen_done_ok (hr ▸ hstep)
          exact ⟨0, st0, cs, rfl, hcs, hu, hs, fun i sti hi _ => absurd hi (Nat.not_lt_zero i)⟩
      | next st2 =>
          rw [hstep] at h
          have h6 : runGen env p fuel st2 = Except.ok s := h
          obtain ⟨n, stn, cs, h1, h2, h3, h4, h5⟩ := ih st2 s h6
          refine ⟨n + 1, stn, cs, by rw [iterateGen_succ hstep]; exact h1, h2, h3, h4, ?_⟩
          intro i sti hi hit
          cases i with
          | zero =>
              rw [iterateGen] at hit
              obtain ⟨cs0, hc0, hu0⟩ := stepGen_next_inv hstep
              cases hit
              exact ⟨cs0, hc0, hu0⟩
          | succ j =>
              rw [iterateGen_succ hstep] at hit
              exact h5 j sti (Nat.lt_of_succ_lt_succ hi) hit

/-! ## C1: success only at the first unique iteration -/

/-- C1: whenever the growing builder returns a success signature, there is
an iteration index `n` such that the signature checked at iteration `n`
had exactly one occurrence in the full image, the returned value is its
trim, and the signature checked at every strictly earlier iteration had
an occurrence count different from one (the uniqueness test being a full
image scan of the signature accumulated at that iteration). -/
theorem growing_builder_returns_first_unique (env : Env) (ea : Nat)
    (wc cont : Bool) (maxLen : Nat) (ask : Bool) (fuel : Nat) (s : Signature)
    (h : GenerateUniqueSignatureForEA env ea wc cont maxLen ask fuel = .ok s) :
    ∃ n stn cs,
      iterateGen env ⟨wc, cont, maxLen, ask, env.getFunc ea⟩ n ⟨[], 0, ea, 0⟩ = some stn ∧
      checkSigAt env ⟨wc, cont, maxLen, ask, env.getFunc ea⟩ stn = some cs ∧
      (FindSignatureOccurences env cs).length = 1 ∧
      s = TrimSignature cs ∧
      ∀ i sti, i < n →
        iterateGen env ⟨wc, cont, maxLen, ask, env.getFunc ea⟩ i ⟨[], 0, ea, 0⟩ = some sti →
        ∃ csi, checkSigAt env ⟨wc, cont, maxLen, ask, env.getFunc ea⟩ sti = some csi ∧
          (FindSignatureOccurences env csi).length ≠ 1 := by
  rw [GenerateUniqueSignatureForEA] at h
  split at h
  · exact absurd h (by simp)
  · split at h
    · exact absurd h (by simp)
    · obtain ⟨n, stn, cs, h1, h2, h3, h4, h5⟩ :=
        runGen_ok_first_unique env ⟨wc, cont, maxLen, ask, env.getFunc ea⟩ fuel ⟨[], 0, ea, 0⟩ s h
      refine ⟨n, stn, cs, h1, h2, by simpa [IsSignatureUnique] using h3, h4, ?_⟩
      intro i sti hi hit
      obtain ⟨csi, hci, hui⟩ := h5 i sti hi hit
      exact ⟨csi, hci, by simpa [IsSignatureUnique] using hui⟩

/-- C1 witness: on the two-byte image of `envA` the builder succeeds at
once, and the first-unique-iteration property is realised concretely. -/
theorem growing_builder_returns_first_unique_witness :
    ∃ n stn cs,
      iterateGen envA ⟨false, false, 1000, true, envA.getFunc 0⟩ n ⟨[], 0, 0, 0⟩ = some stn ∧
      checkSigAt envA ⟨false, false, 1000, true, envA.getFunc 0⟩ stn = some cs ∧
      (FindSignatureOccurences envA cs).length = 1 ∧
      ([⟨144, false⟩] : Signature) = TrimSignature cs ∧
      ∀ i sti, i < n →
        iterateGen envA ⟨false, false, 1000, true, envA.getFunc 0⟩ i ⟨[], 0, 0, 0⟩ = some sti →
        ∃ csi, checkSigAt envA ⟨false, false, 1000, true, envA.getFunc 0⟩ sti = some csi ∧
          (FindSignatureOccurences envA csi).length ≠ 1 :=
  growing_builder_returns_first_unique envA 0 false false 1000 true 1 [⟨144, false⟩] rfl

/-! ## C3: overflow handling -/

/-- C3: in an iteration whose accumulated length counter exceeds the cap
(not cancelled, decode successful): with prompting disabled the builder
fails immediately with `lengthExceeded`; with prompting enabled, Yes
makes the iteration proceed as `stepBody` on the state with the overflow
counter reset to 0, No fails with `notUnique` reporting exactly the
signature held at the moment of overflow (no further bytes appended),
and Cancel fails with `aborted`. -/
theorem overflow_prompt_semantics (env : Env) (wc cont : Bool) (maxLen : Nat)
    (fid : Option Nat) (st : GenState) (insn : Insn)
    (hc : env.cancelled st.iter = false) (hd : decodeAt env st.cur = some insn)
    (hover : st.sigPartLength > maxLen) :
    (∀ fuel, runGen env ⟨wc, cont, maxLen, false, fid⟩ (fuel + 1) st =
        .error .lengthExceeded)
    ∧ (env.promptAnswer st.iter = .yes →
        stepGen env ⟨wc, cont, maxLen, true, fid⟩ st =
          stepBody env ⟨wc, cont, maxLen, true, fid⟩ { st with sigPartLength := 0 } insn)
    ∧ (env.promptAnswer st.iter = .no →
        ∀ fuel, runGen env ⟨wc, cont, maxLen, true, fid⟩ (fuel + 1) st =
          .error (.notUnique st.sig))
    ∧ (env.promptAnswer st.iter = .cancel →
        ∀ fuel, runGen env ⟨wc, cont, maxLen, true, fid⟩ (fuel + 1) st =
          .error .aborted) := by
  refine ⟨?_, ?_, ?_, ?_⟩
  · intro fuel
    simp [runGen, stepGen, hc, hd, hover]
  · intro hans
    simp [stepGen, hc, hd, hover, hans]
  · intro hans fuel
    simp [runGen, stepGen, hc, hd, hover, hans]
  · intro hans fuel
    simp [runGen, stepGen, hc, hd, hover, hans]

/-- C3 witness: a state 2000 bytes deep against a 1000-byte cap realises
all four overflow outcomes on concrete environments differing only in
the prompt answer. -/
theorem overflow_prompt_semantics_witness :
    runGen envA ⟨false, false, 1000, false, none⟩ 1 ⟨[⟨144, false⟩], 2000, 0, 0⟩ =
        .error .lengthExceeded
    ∧ stepGen envA ⟨false, false, 1000, true, none⟩ ⟨[⟨144, false⟩], 2000, 0, 0⟩ =
        stepBody envA ⟨false, false, 1000, true, none⟩ ⟨[⟨144, false⟩], 0, 0, 0⟩ ⟨1, []⟩
    ∧ runGen { envA with promptAnswer := fun _ => .no } ⟨false, false, 1000, true, none⟩ 1
        ⟨[⟨144, false⟩], 2000, 0, 0⟩ = .error (.notUnique [⟨144, false⟩])
    ∧ runGen { envA with promptAnswer := fun _ => .cancel } ⟨false, false, 1000, true, none⟩ 1
        ⟨[⟨144, false⟩], 2000, 0, 0⟩ = .error .aborted := by
  refine ⟨?_, ?_, ?_, ?_⟩
  · exact (overflow_prompt_semantics envA false false 1000 none
      ⟨[⟨144, false⟩], 2000, 0, 0⟩ ⟨1, []⟩ rfl rfl (by decide)).1 0
  · exact (overflow_prompt_semantics envA false false 1000 none
      ⟨[⟨144, false⟩], 2000, 0, 0⟩ ⟨1, []⟩ rfl rfl (by decide)).2.1 rfl
  · exact (overflow_prompt_semantics { envA with promptAnswer := fun _ => .no }
      false false 1000 none ⟨[⟨144, false⟩], 2000, 0, 0⟩ ⟨1, []⟩ rfl rfl (by decide)).2.2.1 rfl 0
  · exact (overflow_prompt_semantics { envA with promptAnswer := fun _ => .cancel }
      false false 1000 none ⟨[⟨144, false⟩], 2000, 0, 0⟩ ⟨1, []⟩ rfl rfl (by decide)).2.2.2 rfl 0

/-! ## C10: function-scope behaviour -/

lemma stepBody_done_not_scope_of_none {env : Env} {p : GenParams} {st : GenState}
    {insn : Insn} {r : Except GenError Signature}
    (h : stepBody env p st insn = .done r) (hn : p.currentFunction = none) :
    r ≠ .error .leftFunctionScope := by
  rw [stepBody] at h
  split at h
  · cases h
    intro hcontra
    exact Except.noConfusion hcontra
  · split at h
    · rename_i hcond
      rw [hn] at hcond
      exact absurd hcond.2.1 (by simp)
    · exact StepRes.noConfusion h

lemma stepGen_done_not_scope_of_none {env : Env} {p : GenParams} {st : GenState}
    {r : Except GenError Signature}
    (h : stepGen env p st = .done r) (hn : p.currentFunction = none) :
    r ≠ .error .leftFunctionScope := by
  by_cases hc : env.cancelled st.iter = true
  · rw [stepGen, if_pos hc] at h
    cases h
    simp
  · rw [stepGen, if_neg hc] at h
    split at h
    · by_cases hs : st.sig.isEmpty = true
      · rw [if_pos hs] at h; cases h; simp
      · rw [if_neg hs] at h; cases h; simp
    · rename_i insn hd
      by_cases hover : st.sigPartLength > p.maxSignatureLength
      · rw [if_pos hover] at h
        by_cases hask : p.askLongerSignature = true
        · rw [if_pos hask] at h
          cases hans : env.promptAnswer st.iter <;> rw [hans] at h
          · exact stepBody_done_not_scope_of_none
              (show stepBody env p { st with sigPartLength := 0 } insn = .done r from h) hn
          · cases h; simp
          · cases h; simp
        · rw [if_neg hask] at h
          cases h; simp
      · rw [if_neg hover] at h
        exact stepBody_done_not_scope_of_none h hn

lemma runGen_not_scope_of_none (env : Env) (p : GenParams) (hn : p.currentFunction = none) :
    ∀ fuel st, runGen env p fuel st ≠ .error .leftFunctionScope := by
  intro fuel
  induction fuel with
  | zero =>
      intro st h
      rw [runGen] at h
      simp at h
  | succ fuel ih =>
      intro st h
      rw [runGen] at h
      cases hstep : stepGen env p st with
      | done r =>
          rw [hstep] at h
          exact stepGen_done_not_scope_of_none hstep hn h
      | next st2 =>
          rw [hstep] at h
          exact ih st2 h

/-- C10: a growing-builder call whose anchor has no enclosing function can
never fail with `leftFunctionScope` (even with
`continueOutsideOfFunction` false); and the function-scope check of an
iteration runs only after its uniqueness test, so an iteration whose
appended signature is unique succeeds even when advancing the cursor
would leave the enclosing function. -/
theorem no_function_scope_cases (env : Env) (ea : Nat) (wc cont : Bool)
    (maxLen : Nat) (ask : Bool) :
    (env.getFunc ea = none → ∀ fuel,
        GenerateUniqueSignatureForEA env ea wc cont maxLen ask fuel ≠
          .error .leftFunctionScope)
    ∧ (∀ p st insn, env.cancelled st.iter = false → decodeAt env st.cur = some insn →
        ¬ st.sigPartLength > p.maxSignatureLength →
        IsSignatureUnique env (appendInsnBytes env p.wildcardOperands st.cur insn st.sig) = true →
        p.continueOutsideOfFunction = false →
        env.getFunc (st.cur + insn.size) ≠ p.currentFunction →
        stepGen env p st = .done (.ok (TrimSignature
          (appendInsnBytes env p.wildcardOperands st.cur insn st.sig)))) := by
  constructor
  · intro hn fuel
    rw [GenerateUniqueSignatureForEA]
    split
    · intro hcontra
      simp at hcontra
    · split
      · intro hcontra
        simp at hcontra
      · exact runGen_not_scope_of_none env _ hn fuel _
  · intro p st insn hc hd hover hu _ _
    simp only [stepGen, hc, hd]
    rw [if_neg hover, stepBody, if_pos hu]
    simp

/-- C10 witness: on `envA` (no enclosing function anywhere) the builder
does not fail with `leftFunctionScope`; and on an environment where
address 0 lies in function 1 but address 1 does not, the iteration whose
signature becomes unique at the function's last instruction returns
success. -/
theorem no_function_scope_cases_witness :
    (GenerateUniqueSignatureForEA envA 0 false false 1000 true 1 ≠
        .error .leftFunctionScope)
    ∧ stepGen { envA with getFunc := fun a => if a = 0 then some 1 else none }
        ⟨false, false, 1000, true, some 1⟩ ⟨[], 0, 0, 0⟩ =
      .done (.ok (TrimSignature (appendInsnBytes
        { envA with getFunc := fun a => if a = 0 then some 1 else none } false 0 ⟨1, []⟩ []))) := by
  constructor
  · exact (no_function_scope_cases envA 0 false false 1000 true).1 rfl 1
  · exact (no_function_scope_cases
      { envA with getFunc := fun a => if a = 0 then some 1 else none } 0 false false 1000 true).2
      ⟨false, false, 1000, true, some 1⟩ ⟨[], 0, 0, 0⟩ ⟨1, []⟩ rfl rfl (by decide)
      (by decide) rfl (by decide)

/-! ## C8: successful builder results carry no trailing wildcard -/

lemma mem_of_mem_getLast? {l : Signature} {b : SignatureByte}
    (h : b ∈ l.getLast?) : b ∈ l := by
  induction l with
  | nil => simp [List.getLast?] at h
  | cons c rest ih =>
      cases rest with
      | nil =>
          simp only [List.getLast?_singleton, Option.mem_def, Option.some.injEq] at h
          simp [h]
      | cons d rest2 =>
          rw [List.getLast?_cons_cons] at h
          exact List.mem_cons_of_mem c (ih h)

lemma noTrailing_of_all_literal {l : Signature}
    (hall : ∀ b ∈ l, b.isWildcard = false) : noTrailingWildcard l :=
  fun b hb => hall b (mem_of_mem_getLast? hb)

lemma runGen_ok_trim {env : Env} {p : GenParams} {fuel : Nat} {st : GenState}
    {s : Signature} (h : runGen env p fuel st = .ok s) :
    ∃ t, s = TrimSignature t := by
  obtain ⟨_, _, cs, _, _, _, h4, _⟩ := runGen_ok_first_unique env p fuel st s h
  exact ⟨cs, h4⟩

lemma stepRange_done_ok {env : Env} {wc : Bool} {eaEnd : Nat} {st : RangeState}
    {s : Signature} (h : stepRange env wc eaEnd st = .done (.ok s)) :
    ∃ t, s = TrimSignature t := by
  by_cases hc : env.cancelled st.iter = true
  · rw [stepRange, if_pos hc] at h
    simp at h
  · rw [stepRange, if_neg hc] at h
    split at h
    · by_cases hs : st.sig.isEmpty = true
      · rw [if_pos hs] at h
        simp at h
      · rw [if_neg hs] at h
        simp only [RangeStepRes.done.injEq, Except.ok.injEq] at h
        exact ⟨_, h.symm⟩
    · rename_i insn hd
      split at h
      · simp only [RangeStepRes.done.injEq, Except.ok.injEq] at h
        exact ⟨_, h.symm⟩
      · exact RangeStepRes.noConfusion h

lemma runRange_ok_trim (env : Env) (wc : Bool) (eaEnd : Nat) :
    ∀ fuel st s, runRange env wc eaEnd fuel st = .ok s →
      ∃ t, s = TrimSignature t := by
  intro fuel
  induction fuel with
  | zero =>
      intro st s h
      rw [runRange] at h
      simp at h
  | succ fuel ih =>
      intro st s h
      rw [runRange] at h
      cases hstep : stepRange env wc eaEnd st with
      | done r =>
          rw [hstep] at h
          have hr : r = Except.ok s := h
          exact stepRange_done_ok (hr ▸ hstep)
      | next st2 =>
          rw [hstep] at h
          exact ih st2 s h

/-- C8: every signature returned as a success by either builder has no
trailing wildcard entry: the growing builder and the code paths of the
range builder trim before returning, and the data path of the range
builder appends only literal bytes. -/
theorem builders_return_trimmed (env : Env) (ea : Nat) (wc cont : Bool)
    (maxLen : Nat) (ask : Bool) (fuel : Nat) (eaS eaE : Nat) (wc2 : Bool)
    (fuel2 : Nat) (s : Signature)
    (h : GenerateUniqueSignatureForEA env ea wc cont maxLen ask fuel = .ok s ∨
         GenerateSignatureForEARange env eaS eaE wc2 fuel2 = .ok s) :
    noTrailingWildcard s := by
  rcases h with h | h
  · rw [GenerateUniqueSignatureForEA] at h
    split at h
    · exact absurd h (by simp)
    · split at h
      · exact absurd h (by simp)
      · obtain ⟨t, ht⟩ := runGen_ok_trim h
        exact ht ▸ trim_noTrailingWildcard t
  · rw [GenerateSignatureForEARange] at h
    split at h
    · exact absurd h (by simp)
    · split at h
      · simp only [Except.ok.injEq] at h
        refine noTrailing_of_all_literal (fun b hb => ?_)
        rw [← h, AddBytesToSignature, List.nil_append, segBytes] at hb
        obtain ⟨i, _, hi⟩ := List.mem_map.mp hb
        rw [← hi]
      · obtain ⟨t, ht⟩ := runRange_ok_trim env wc2 eaE fuel2 _ s h
        exact ht ▸ trim_noTrailingWildcard t

/-- C8 witness: the growing builder's success on `envA` has no trailing
wildcard. -/
theorem builders_return_trimmed_witness :
    noTrailingWildcard [⟨144, false⟩] :=
  builders_return_trimmed envA 0 false false 1000 true 1 0 0 false 1
    [⟨144, false⟩] (Or.inl rfl)

/-! ## C7: cross-reference ranking -/

lemma countCodeXrefs_eq (env : Env) :
    ∀ l : List Nat, countCodeXrefs env l = (l.filter env.isCode).length := by
  intro l
  induction l with
  | nil => rfl
  | cons o rest ih =>
      by_cases hc : env.isCode o = true <;>
        simp [countCodeXrefs, List.filter_cons, hc, ih, Nat.add_comm]

lemma collectXrefSigs_eq (env : Env) (wc cont : Bool) (maxLen fuel : Nat) :
    ∀ l : List Nat,
      collectXrefSigs env wc cont maxLen fuel l =
        (l.filter env.isCode).filterMap (genPair env wc cont maxLen fuel) := by
  intro l
  induction l with
  | nil => rfl
  | cons o rest ih =>
      by_cases hc : env.isCode o = true
      · cases hg : genPair env wc cont maxLen fuel o <;>
          simp [collectXrefSigs, List.filter_cons, hc, hg, ih]
      · simp [collectXrefSigs, List.filter_cons, hc, ih]

lemma sorted_head_min {l : List (Nat × Signature)} (h : List.Sorted sigLenLE l) :
    ∀ hd ∈ l.head?, ∀ pr ∈ l, hd.2.length ≤ pr.2.length := by
  cases l with
  | nil => simp
  | cons a rest =>
      intro hd hhd pr hpr
      simp only [List.head?_cons, Option.mem_def, Option.some.injEq] at hhd
      subst hhd
      rcases List.mem_cons.mp hpr with h1 | h1
      · rw [h1]
      · exact (List.sorted_cons.mp h).1 pr h1

/-- C7: the ranked list is a permutation of the pairs collected by
filtering the enumerated far-reference origins down to code addresses
and keeping exactly the successful runs of the growing builder (invoked
with prompting disabled and the given cap); the counting loop counts
only code origins; the ranked list is sorted ascending by signature byte
count; and the primary (clipboard) pick — its head — has minimal byte
count. -/
theorem xref_ranker_filters_sorts (env : Env) (ea : Nat) (wc cont : Bool)
    (maxLen fuel : Nat) :
    List.Perm (FindXRefs env ea wc cont maxLen fuel)
      (((env.xrefsTo ea).filter env.isCode).filterMap (genPair env wc cont maxLen fuel))
    ∧ countCodeXrefs env (env.xrefsTo ea) = ((env.xrefsTo ea).filter env.isCode).length
    ∧ List.Sorted sigLenLE (FindXRefs env ea wc cont maxLen fuel)
    ∧ (∀ hd ∈ xrefPrimaryPick (FindXRefs env ea wc cont maxLen fuel),
        ∀ pr ∈ FindXRefs env ea wc cont maxLen fuel, hd.2.length ≤ pr.2.length) := by
  refine ⟨?_, countCodeXrefs_eq env _, ?_, ?_⟩
  · rw [FindXRefs, collectXrefSigs_eq]
    exact List.perm_insertionSort sigLenLE _
  · exact List.sorted_insertionSort sigLenLE _
  · exact sorted_head_min (List.sorted_insertionSort sigLenLE _)

/-- C7 witness: on `envA` (one code xref at address 0) ranking yields the
one successful pair, and the primary pick is minimal. -/
theorem xref_ranker_filters_sorts_witness :
    xrefPrimaryPick (FindXRefs envA 7 false false 1000 1) = some (0, [⟨144, false⟩])
    ∧ ((0 : Nat), ([⟨144, false⟩] : Signature)).2.length ≤
        ((0 : Nat), ([⟨144, false⟩] : Signature)).2.length := by
  constructor
  · rfl
  · exact (xref_ranker_filters_sorts envA 7 false false 1000 1).2.2.2
      (0, [⟨144, false⟩]) rfl (0, [⟨144, false⟩]) (by decide)

/-! ## C5: masked pasted-text parsing -/

lemma zipMask_getElem? : ∀ (mask : List Char) (toks : List Nat) (i : Nat),
    (zipMask mask toks)[i]? =
      match toks[i]?, mask[i]? with
      | some v, some c => some ⟨v, c == '?'⟩
      | some _, none => none
      | none, _ => none := by
  intro mask toks
  induction toks generalizing mask with
  | nil => intro i; simp [zipMask]
  | cons v rest ih =>
      intro i
      cases mask with
      | nil => cases ht : (v :: rest)[i]? <;> simp [zipMask, ht]
      | cons c mrest =>
          cases i with
          | zero => simp [zipMask]
          | succ j => simpa [zipMask] using ih mrest j

/-- C5: on pasted text in which a mask was detected (a string mask, or a
binary literal reversed and mapped to a mask by `bitsToMask`), the
masked branch accepts exactly when the `\xNN` token count or else the
`0xNN` token count equals the mask length, returning the zip of the
accepted tokens with the mask (`?` means wildcard, position by
position); on a double count mismatch it reports the mismatch naming the
detected mask and yields no signature. -/
theorem masked_parse_count_and_zip (input mask : List Char)
    (hdet : detectedMask input = mask) (_hne : mask ≠ []) :
    (∀ sig, parseWithMask input mask = .ok sig →
      ((extractEscBytes input).length = mask.length ∧
        sig = zipMask mask (extractEscBytes input)) ∨
      ((extract0xBytes input).length = mask.length ∧
        sig = zipMask mask (extract0xBytes input)))
    ∧ ((extractEscBytes input).length ≠ mask.length →
        (extract0xBytes input).length ≠ mask.length →
        parseWithMask input mask = .maskMismatch mask)
    ∧ (∀ bits, findStringMask input = none → findBitmaskBits input = some bits →
        mask = bitsToMask bits)
    ∧ (∀ (toks : List Nat) (i : Nat), toks.length = mask.length →
        (zipMask mask toks).length = mask.length ∧
        (zipMask mask toks)[i]? =
          match toks[i]?, mask[i]? with
          | some v, some c => some (SignatureByte.mk v (c == '?'))
          | some _, none => none
          | none, _ => none) := by
  refine ⟨?_, ?_, ?_, ?_⟩
  · intro sig h
    rw [parseWithMask] at h
    split at h
    · rename_i hcond
      simp only [MaskParseResult.ok.injEq] at h
      exact Or.inl ⟨hcond.2, h.symm⟩
    · split at h
      · rename_i hcond
        simp only [MaskParseResult.ok.injEq] at h
        exact Or.inr ⟨hcond.2, h.symm⟩
      · exact absurd h (by simp)
  · intro h1 h2
    rw [parseWithMask, if_neg (fun hcontra => h1 hcontra.2),
      if_neg (fun hcontra => h2 hcontra.2)]
  · intro bits hs hb
    rw [detectedMask, hs, hb] at hdet
    exact hdet.symm
  · intro toks i hlen
    refine ⟨?_, zipMask_getElem? mask toks i⟩
    simp [zipMask, hlen]

/-- The spec's dialect-detection test input for the bitmask form. -/
def inputBits : List Char := "0b1010 0x41 0x42 0x43 0x44".toList

/-- A string-masked input whose byte-token count does not match. -/
def inputEsc : List Char := "xx? \\x41\\x42".toList

/-- C5 witness: `"0b1010"` with four `0xNN` tokens parses through the mask
`?x?x` (bit string reversed, `1` → `x`, `0` → `?`); a detected string
mask `xx?` with only two byte tokens is reported as a mismatch naming
that mask; and the zip characterisation holds pointwise on the accepted
input. -/
theorem masked_parse_count_and_zip_witness :
    (((extractEscBytes inputBits).length = (detectedMask inputBits).length ∧
        zipMask (detectedMask inputBits) (extract0xBytes inputBits) =
          zipMask (detectedMask inputBits) (extractEscBytes inputBits)) ∨
      ((extract0xBytes inputBits).length = (detectedMask inputBits).length ∧
        zipMask (detectedMask inputBits) (extract0xBytes inputBits) =
          zipMask (detectedMask inputBits) (extract0xBytes inputBits)))
    ∧ parseWithMask inputEsc (detectedMask inputEsc) =
        .maskMismatch (detectedMask inputEsc)
    ∧ detectedMask inputBits = bitsToMask ("1010".toList)
    ∧ ((zipMask (detectedMask inputBits) [65, 66, 67, 68]).length =
          (detectedMask inputBits).length ∧
        (zipMask (detectedMask inputBits) [65, 66, 67, 68])[0]? =
          match ([65, 66, 67, 68] : List Nat)[0]?, (detectedMask inputBits)[0]? with
          | some v, some c => some (SignatureByte.mk v (c == '?'))
          | some _, none => none
          | none, _ => none) := by
  refine ⟨?_, ?_, ?_, ?_⟩
  · exact (masked_parse_count_and_zip inputBits (detectedMask inputBits) rfl
      (by decide)).1 (zipMask (detectedMask inputBits) (extract0xBytes inputBits)) rfl
  · exact (masked_parse_count_and_zip inputEsc (detectedMask inputEsc) rfl
      (by decide)).2.1 (by decide) (by decide)
  · exact (masked_parse_count_and_zip inputBits (detectedMask inputBits) rfl
      (by decide)).2.2.1 ("1010".toList) rfl rfl
  · exact (masked_parse_count_and_zip inputBits (detectedMask inputBits) rfl
      (by decide)).2.2.2 [65, 66, 67, 68] 0 (by decide)

end SigMaker
